import Mathlib

/-!
Shallow embedding of `src/epitopes/tcga.py` (pepdata): the TCGA mutation
verification module.  The module parses protein-change strings such as
`p.Q206E` with the regular expression `p.([A-Z])([0-9]+)([A-Z])` (applied by
pandas `str.extract`, i.e. `re.search` semantics: unanchored, `.` matches any
character except a newline), builds a dictionary from RefSeq protein ids to
protein sequences from FASTA records, and checks each mutation record against
the reference sequence, counting failures.  A thin cohort loader fetches and
concatenates MAF tables.

Strings are embedded as `List Char`; Python integers as `Int`/`Nat`;
Python dictionaries as association lists updated with overwrite semantics;
the possibility of an uncaught `IndexError` is an `Option` `none`.
-/

/-- Character class `[A-Z]` of the regular expression (code points 65..90). -/
def isUpperAZ (c : Char) : Bool := 65 ≤ c.toNat && c.toNat ≤ 90

/-- Character class `[0-9]` of the regular expression (code points 48..57). -/
def isDigitChar (c : Char) : Bool := 48 ≤ c.toNat && c.toNat ≤ 57

/-- Python `int(s)` on a string of decimal digits. -/
def digitsToNat (ds : List Char) : Nat :=
  ds.foldl (fun acc c => acc * 10 + (c.toNat - 48)) 0

/-- Python `s.split(sep)` for a single-character separator:
`"".split` gives `[""]`, adjacent separators give empty fields. -/
def splitOnChar (sep : Char) : List Char → List (List Char)
  | [] => [[]]
  | x :: xs =>
    match splitOnChar sep xs with
    | [] => [[]]
    | h :: t => if x = sep then [] :: h :: t else (x :: h) :: t

/-- Python `dict.get` / association-list lookup. -/
def assocLookup {α β : Type} [DecidableEq α] : List (α × β) → α → Option β
  | [], _ => none
  | (k, v) :: t, a => if k = a then some v else assocLookup t a

/-- Python `d[k] = v`: overwrite the binding if the key is present,
otherwise append it. -/
def insertIdx {α β : Type} [DecidableEq α] (k : α) (v : β) :
    List (α × β) → List (α × β)
  | [] => [(k, v)]
  | (k₁, v₁) :: t => if k₁ = k then (k, v) :: t else (k₁, v₁) :: insertIdx k v t

/-- Python sequence indexing `l[i]`: a negative index counts from the end;
an index out of range (on either side) raises `IndexError`, here `none`. -/
def pythonGet (l : List Char) (i : Int) : Option Char :=
  if 0 ≤ i then l.get? i.toNat
  else if -(l.length : Int) ≤ i then l.get? ((l.length : Int) + i).toNat
  else none

/-! ### The mutation-change pattern `p.([A-Z])([0-9]+)([A-Z])`

`matchSub s` is the Python regex engine's attempt to match the pattern at the
start of `s`.  The greedy group `([0-9]+)` never needs backtracking here: if
the character after the maximal digit run is not in `[A-Z]`, giving back a
digit makes the final `([A-Z])` face that digit, which also fails; so the
match at a given start position succeeds exactly when the character after the
maximal nonempty digit run is an uppercase letter. -/

/-- Attempt to match `p.([A-Z])([0-9]+)([A-Z])` at the start of `s`,
returning the three captured groups. -/
def matchSub (s : List Char) : Option (Char × List Char × Char) :=
  match s with
  | p₁ :: c :: w :: rest =>
    if p₁ = 'p' then
      if c = '\n' then none
      else if isUpperAZ w then
        match rest.takeWhile isDigitChar, rest.drop (rest.takeWhile isDigitChar).length with
        | [], _ => none
        | _ :: _, [] => none
        | d :: ds, m :: _ => if isUpperAZ m then some (w, d :: ds, m) else none
      else none
    else none
  | _ => none

/-- `re.search`: try the pattern at each start position, leftmost match wins. -/
def searchSub : List Char → Option (Char × List Char × Char)
  | [] => none
  | s₁ :: t =>
    match matchSub (s₁ :: t) with
    | some r => some r
    | none => searchSub t

/-- `Series.str.extract(SINGLE_AMINO_ACID_SUBSTITUTION)` on one cell: the
three captured groups of the first match, or no row (`none`) when the
pattern does not occur (the row is then dropped by `dropna`). -/
def extractSubst (s : List Char) : Option (Char × List Char × Char) :=
  searchSub s

/-! ### Reference sequence index (`_build_refseq_id_to_protein`) -/

/-- One FASTA record as delivered by `Bio.SeqIO`: the identifier token and
the sequence string (stored verbatim). -/
structure FastaRecord where
  id : List Char
  seq : List Char
deriving DecidableEq, Repr

/-- `record.id.split("|")[3]`, kept only when it starts with `NP_`, then
truncated at the first dot: `some` stripped key, or `none` when the record
is skipped (the `IndexError` of a too-short split is caught, and non-`NP_`
accessions fall through the `if`). -/
def stripRefseqId (rawId : List Char) : Option (List Char) :=
  match (splitOnChar '|' rawId).get? 3 with
  | none => none
  | some name =>
    if ['N', 'P', '_'].isPrefixOf name
    then some ((splitOnChar '.' name).headD [])
    else none

/-- One iteration of the FASTA loop: skip on a skipped record, otherwise
Python dict assignment `result[before_dot] = protein`. -/
def buildStep (acc : List (List Char × List Char)) (r : FastaRecord) :
    List (List Char × List Char) :=
  match stripRefseqId r.id with
  | none => acc
  | some k => insertIdx k r.seq acc

/-- The dictionary from stripped RefSeq ids to protein sequences,
built record by record with Python dict assignment (last write wins). -/
def build_refseq_id_to_protein (records : List FastaRecord) :
    List (List Char × List Char) :=
  records.foldl buildStep []

/-- One step of the spec-side last-write-wins reading: a record producing
key `k` overwrites the value seen so far. -/
def lwwStep (k : List Char) (o : Option (List Char)) (r : FastaRecord) :
    Option (List Char) :=
  if stripRefseqId r.id = some k then some r.seq else o

/-- Modelled from the spec (§3, §9): the last-write-wins reading of index
construction — the value at key `k` is the sequence of the last record in
iteration order whose stripped identifier is `k`. -/
def lastWriteWins (records : List FastaRecord) (k : List Char) : Option (List Char) :=
  records.foldl (lwwStep k) none

/-- Modelled from the spec (§4.2): a record is kept exactly when its raw
identifier has at least 4 pipe-delimited fields and the 4th field starts
with `NP_`. -/
def specKeeps (r : FastaRecord) : Bool :=
  match (splitOnChar '|' r.id).get? 3 with
  | none => false
  | some name => ['N', 'P', '_'].isPrefixOf name

/-! ### The verification loop of `load_mutant_peptides` -/

/-- Classification of one mutation record, per the spec's §3 taxonomy.
`unparsable` stands for the spec's fifth category (row dropped before the
loop); the other four correspond to the loop's branches. -/
inductive VerificationOutcome where
  | verified
  | unknownReference
  | positionOutOfRange
  | residueMismatch
  | unparsable
deriving DecidableEq, Repr

/-- One row of the filtered table: `Refseq_prot_Id` and `Protein_Change`. -/
structure MutationRecord where
  rid : List Char
  change : List Char
deriving DecidableEq, Repr

/-- The body of the verification loop for a row whose change string matched,
with captured groups `w` (wildtype), `posStr` (digits), `m` (mutant):
dictionary lookup, `amino_acid_pos = int(str_position) - 1`, the length
check `len(protein) <= amino_acid_pos`, then `protein[amino_acid_pos]`
compared to `w`.  `none` is an uncaught `IndexError`. -/
def verifySub (idx : List (List Char × List Char)) (rid : List Char)
    (w : Char) (posStr : List Char) (m : Char) : Option VerificationOutcome :=
  match assocLookup idx rid with
  | none => some .unknownReference
  | some protein =>
    if (protein.length : Int) ≤ (digitsToNat posStr : Int) - 1 then
      some .positionOutOfRange
    else
      match pythonGet protein ((digitsToNat posStr : Int) - 1) with
      | none => none
      | some oldAA => if oldAA ≠ w then some .residueMismatch else some .verified

/-- Outcome of one mutation record: extraction first (a non-matching row is
classified `unparsable`), then the loop body.  `none` is a crash. -/
def processRecord (idx : List (List Char × List Char)) (r : MutationRecord) :
    Option VerificationOutcome :=
  match extractSubst r.change with
  | none => some .unparsable
  | some (w, p, m) => verifySub idx r.rid w p m

/-- The structured outcome sequence for a batch (spec §4.3/§9): one outcome
per input record, `none` if any record crashes the loop. -/
def verifyOutcomes (idx : List (List Char × List Char)) :
    List MutationRecord → Option (List VerificationOutcome)
  | [] => some []
  | r :: rs =>
    match processRecord idx r with
    | none => none
    | some o =>
      match verifyOutcomes idx rs with
      | none => none
      | some os => some (o :: os)

/-- The `n_failed` accumulation of the loop: rows whose change string did not
match were dropped before the loop (no increment); the three failure
branches increment; `Verified` falls through. -/
def countFailures (idx : List (List Char × List Char)) :
    List MutationRecord → Nat → Option Nat
  | [], acc => some acc
  | r :: rs, acc =>
    match extractSubst r.change with
    | none => countFailures idx rs acc
    | some (w, p, m) =>
      match verifySub idx r.rid w p m with
      | none => none
      | some .verified => countFailures idx rs acc
      | some _ => countFailures idx rs (acc + 1)

/-- The final report `"%d / %d failed" % (n_failed, len(filtered))`:
failure count and total record count. -/
def load_summary (idx : List (List Char × List Char))
    (records : List MutationRecord) : Option (Nat × Nat) :=
  (countFailures idx records 0).map (fun n => (n, records.length))

/-- Modelled from the spec (C1's words): the residue at a 0-based offset,
read as a genuine 0-based index into the sequence (no residue at a negative
offset). -/
def specResidueAt (protein : List Char) (off : Int) : Option Char :=
  if 0 ≤ off then protein.get? off.toNat else none

/-- Modelled from the spec (§4.3 / claim C1): the four-stage outcome ladder —
unknown reference, then offset `position - 1` out of range when `≥` the
sequence length, then case-sensitive residue comparison at that offset,
otherwise verified. -/
def spec_outcome_ladder (idx : List (List Char × List Char)) (rid : List Char)
    (w : Char) (pos : Nat) (m : Char) : VerificationOutcome :=
  match assocLookup idx rid with
  | none => .unknownReference
  | some protein =>
    if (protein.length : Int) ≤ (pos : Int) - 1 then .positionOutOfRange
    else if specResidueAt protein ((pos : Int) - 1) ≠ some w then .residueMismatch
    else .verified

/-! ### The cohort loader `_load_maf_files` -/

/-- Calls made to the external collaborators while loading, tagged with the
cohort name they are for: `fetch_data(filename, url)` and `open_maf(path)`. -/
inductive MafEvent where
  | fetch (cohort filename url : String)
  | parseMaf (cohort path : String)
deriving DecidableEq, Repr

/-- The cohort name an event is for. -/
def MafEvent.cohort : MafEvent → String
  | .fetch k _ _ => k
  | .parseMaf k _ => k

/-- The fatal error of the loader: `assert key in sources_dict`. -/
inductive LoadError where
  | unknownCohort (name : String)
deriving DecidableEq, Repr

/-- The `cancer_type` argument: `None`, a single name, or a list of names. -/
inductive CohortSelector where
  | allCohorts
  | oneCohort (s : String)
  | someCohorts (l : List String)
deriving DecidableEq, Repr

/-- Resolution of the selector to the list of cohort keys to process. -/
def selectedKeys (catalog : List (String × String)) : CohortSelector → List String
  | .allCohorts => catalog.map Prod.fst
  | .oneCohort s => [s]
  | .someCohorts l => l

/-- The loop of `_load_maf_files` over the selected keys, parameterised by
the external fetcher (`fetchData name url` returns a local path).  Each
iteration asserts membership in the catalog before any call; on an unknown
key the assertion fails and nothing further runs.  Returns the collaborator
calls performed and the error, if any. -/
def loadMafLoop (fetchData : String → String → String)
    (catalog : List (String × String)) :
    List String → List MafEvent × Option LoadError
  | [] => ([], none)
  | k :: ks =>
    match assocLookup catalog k with
    | none => ([], some (.unknownCohort k))
    | some url =>
      let path := fetchData (k ++ ".maf") url
      let rest := loadMafLoop fetchData catalog ks
      (.fetch k (k ++ ".maf") url :: .parseMaf k path :: rest.1, rest.2)

/-- `_load_maf_files(sources_dict, cancer_type)`, reduced to its observable
collaborator calls and failure behaviour. -/
def load_maf_files (fetchData : String → String → String)
    (catalog : List (String × String)) (sel : CohortSelector) :
    List MafEvent × Option LoadError :=
  loadMafLoop fetchData catalog (selectedKeys catalog sel)

/-- The calls one known key contributes: its fetch, then its parse. -/
def evsFor (fetchData : String → String → String)
    (catalog : List (String × String)) (k : String) : List MafEvent :=
  match assocLookup catalog k with
  | none => []
  | some url => [.fetch k (k ++ ".maf") url, .parseMaf k (fetchData (k ++ ".maf") url)]

/-! ### Helper lemmas about the character classes and the pattern matcher -/

/-- An uppercase letter is not a digit (the code-point ranges are disjoint). -/
theorem upper_not_digit {c : Char} (h : isUpperAZ c = true) : isDigitChar c = false := by
  simp only [isUpperAZ, Bool.and_eq_true, decide_eq_true_eq] at h
  simp only [isDigitChar, Bool.and_eq_true, decide_eq_true_eq, Bool.eq_false_iff, ne_eq,
    not_and]
  omega

/-- `takeWhile` over a run of satisfying characters followed by a failing one
returns exactly the run. -/
theorem takeWhile_run (p : Char → Bool) :
    ∀ (ds : List Char) (m : Char) (rest : List Char),
      (∀ c ∈ ds, p c = true) → p m = false →
      ((ds ++ m :: rest).takeWhile p = ds)
  | [], m, rest, _, hm => by simp [hm]
  | d :: ds, m, rest, h, hm => by
    have hd : p d = true := h d (by simp)
    rw [List.cons_append, List.takeWhile_cons_of_pos hd,
      takeWhile_run p ds m rest (fun c hc => h c (by simp [hc])) hm]

/-- The pattern matches at the start of a well-formed substitution string and
captures exactly the three groups. -/
theorem matchSub_substForm (w m d : Char) (ds : List Char)
    (hw : isUpperAZ w = true) (hm : isUpperAZ m = true)
    (hd : isDigitChar d = true) (hds : ∀ c ∈ ds, isDigitChar c = true) :
    matchSub ('p' :: '.' :: w :: ((d :: ds) ++ [m])) = some (w, d :: ds, m) := by
  have hall : ∀ c ∈ d :: ds, isDigitChar c = true := by
    intro c hc
    rcases List.mem_cons.mp hc with h | h
    · exact h ▸ hd
    · exact hds c h
  have htw : ((d :: ds) ++ [m]).takeWhile isDigitChar = d :: ds :=
    takeWhile_run isDigitChar (d :: ds) m [] hall (upper_not_digit hm)
  simp only [matchSub, htw, List.drop_left, hw, hm]
  simp

/-- C3: for every string of the form `p.` + uppercase letter + nonempty digit
run + uppercase letter, the parser returns exactly the three captured groups
as the substitution descriptor. -/
theorem parser_extracts_substitution_groups (w m d : Char) (ds : List Char)
    (hw : isUpperAZ w = true) (hm : isUpperAZ m = true)
    (hd : isDigitChar d = true) (hds : ∀ c ∈ ds, isDigitChar c = true) :
    extractSubst ('p' :: '.' :: w :: ((d :: ds) ++ [m])) = some (w, d :: ds, m) := by
  unfold extractSubst searchSub
  rw [matchSub_substForm w m d ds hw hm hd hds]

/-- Witness for C3: `p.Q206E` parses to wildtype `Q`, digits `206`, mutant `E`. -/
theorem parser_extracts_substitution_groups_witness :
    extractSubst "p.Q206E".data = some ('Q', "206".data, 'E') :=
  parser_extracts_substitution_groups 'Q' 'E' '2' ['0', '6']
    (by decide) (by decide) (by decide) (by decide)

/-- The pattern cannot match at a position when the string holds no
uppercase letter: the `([A-Z])` group needs one. -/
theorem matchSub_none_no_upper :
    ∀ (s : List Char), (∀ c ∈ s, isUpperAZ c = false) → matchSub s = none := by
  intro s h
  rcases s with _ | ⟨a, _ | ⟨b, _ | ⟨w, rest⟩⟩⟩
  · rfl
  · rfl
  · rfl
  · have hw : isUpperAZ w = false := h w (by simp)
    simp only [matchSub, hw]
    simp

/-- `re.search` finds no match in a string with no uppercase letter. -/
theorem searchSub_none_no_upper :
    ∀ (s : List Char), (∀ c ∈ s, isUpperAZ c = false) → searchSub s = none
  | [], _ => rfl
  | a :: t, h => by
    unfold searchSub
    rw [matchSub_none_no_upper (a :: t) h]
    exact searchSub_none_no_upper t (fun c hc => h c (List.mem_cons_of_mem a hc))

/-- C4 counterexample: a valid substitution padded with leading and trailing
whitespace still matches — `str.extract` searches unanchored — so the claim
that such strings return no match is false on the code. -/
theorem whitespace_padded_substitution_still_matches :
    extractSubst " p.Q206E ".data = some ('Q', "206".data, 'E') ∧
    extractSubst " p.Q206E ".data ≠ none := by
  decide

/-- C4 amended: the parser returns no match for every string containing no
uppercase letter (this covers the empty string, `p.del`, and lowercase
notations such as `p.q206e`) and for prefix-free strings such as `Q206E`;
it is a total function, so no error reaches the caller.  However, because
matching is an unanchored search and the dot of the pattern is a wildcard,
leading or trailing whitespace around a valid notation does not prevent a
match. -/
theorem parser_rejects_non_substitutions :
    (∀ s : List Char, (∀ c ∈ s, isUpperAZ c = false) → extractSubst s = none) ∧
    extractSubst "".data = none ∧
    extractSubst "p.del".data = none ∧
    extractSubst "p.q206e".data = none ∧
    extractSubst "Q206E".data = none :=
  ⟨fun s h => searchSub_none_no_upper s h, by decide, by decide, by decide, by decide⟩

/-- Witness for C4 amended: `p.del` contains no uppercase letter and indeed
fails to match. -/
theorem parser_rejects_non_substitutions_witness :
    extractSubst "p.del".data = none :=
  parser_rejects_non_substitutions.1 "p.del".data (by decide)

/-- C8 counterexample: `p.A0B` is produced by the parser with digit group
`0`, whose integer value is `0`, not `≥ 1`. -/
theorem parser_accepts_position_zero :
    extractSubst "p.A0B".data = some ('A', "0".data, 'B') ∧
    digitsToNat "0".data = 0 ∧ ¬(1 ≤ digitsToNat "0".data) := by
  decide

/-- The digit group of a successful match is a nonempty run of digits. -/
theorem matchSub_digits {s : List Char} {w m : Char} {p : List Char}
    (h : matchSub s = some (w, p, m)) : p ≠ [] ∧ ∀ c ∈ p, isDigitChar c = true := by
  rcases s with _ | ⟨a, _ | ⟨b, _ | ⟨w', rest⟩⟩⟩
  · simp [matchSub] at h
  · simp [matchSub] at h
  · simp [matchSub] at h
  · simp only [matchSub] at h
    split at h
    rotate_left
    · simp at h
    split at h
    · simp at h
    split at h
    rotate_left
    · simp at h
    split at h
    · simp at h
    · simp at h
    · rename_i d ds m₁ tail heq1 heq2
      split at h
      · simp only [Option.some.injEq, Prod.mk.injEq] at h
        obtain ⟨-, hp, -⟩ := h
        subst hp
        refine ⟨by simp, ?_⟩
        intro c hc
        rw [← heq1] at hc
        exact List.mem_takeWhile_imp hc
      · simp at h

/-- The digit group of a successful search is a nonempty run of digits. -/
theorem searchSub_digits :
    ∀ {s : List Char} {w m : Char} {p : List Char},
      searchSub s = some (w, p, m) → p ≠ [] ∧ ∀ c ∈ p, isDigitChar c = true := by
  intro s
  induction s with
  | nil => intro w m p h; simp [searchSub] at h
  | cons a t ih =>
    intro w m p h
    unfold searchSub at h
    cases hm : matchSub (a :: t) with
    | none => rw [hm] at h; exact ih h
    | some r => rw [hm] at h; cases h; exact matchSub_digits hm

/-- A record whose change string parses is processed by the loop body. -/
theorem processRecord_parsed {idx : List (List Char × List Char)}
    {r : MutationRecord} {w m : Char} {p : List Char}
    (hx : extractSubst r.change = some (w, p, m)) :
    processRecord idx r = verifySub idx r.rid w p m := by
  unfold processRecord
  rw [hx]

/-- The loop body once the reference sequence has been found. -/
theorem verifySub_found {idx : List (List Char × List Char)} {rid : List Char}
    {w m : Char} {p protein : List Char}
    (hl : assocLookup idx rid = some protein) :
    verifySub idx rid w p m =
      (if (protein.length : Int) ≤ (digitsToNat p : Int) - 1 then
        some .positionOutOfRange
      else
        match pythonGet protein ((digitsToNat p : Int) - 1) with
        | none => none
        | some oldAA =>
          if oldAA ≠ w then some .residueMismatch else some .verified) := by
  unfold verifySub
  rw [hl]

/-- The spec ladder once the reference sequence has been found. -/
theorem spec_outcome_ladder_found {idx : List (List Char × List Char)}
    {rid : List Char} {w m : Char} {pos : Nat} {protein : List Char}
    (hl : assocLookup idx rid = some protein) :
    spec_outcome_ladder idx rid w pos m =
      (if (protein.length : Int) ≤ (pos : Int) - 1 then .positionOutOfRange
      else if specResidueAt protein ((pos : Int) - 1) ≠ some w then .residueMismatch
      else .verified) := by
  unfold spec_outcome_ladder
  rw [hl]

/-- C8 amended: the position group of every parsed descriptor is a nonempty
digit run — its integer value is ≥ 0 and can be 0 — and when the parsed
position is 1 the verifier compares the wildtype against the residue at
0-based offset 0, i.e. the first residue of the looked-up sequence. -/
theorem substitution_position_domain :
    (∀ (s : List Char) (w m : Char) (p : List Char),
        extractSubst s = some (w, p, m) → p ≠ [] ∧ ∀ c ∈ p, isDigitChar c = true) ∧
    (∀ (idx : List (List Char × List Char)) (r : MutationRecord)
        (w m : Char) (p protein : List Char),
        extractSubst r.change = some (w, p, m) → digitsToNat p = 1 →
        assocLookup idx r.rid = some protein →
        processRecord idx r = some (match protein.get? 0 with
          | none => .positionOutOfRange
          | some c => if c = w then .verified else .residueMismatch)) := by
  constructor
  · intro s w m p h
    exact searchSub_digits h
  · intro idx r w m p protein hx hpos hl
    rw [processRecord_parsed hx, verifySub_found hl, hpos]
    cases protein with
    | nil => simp
    | cons c t =>
      have hlen : ¬(((c :: t).length : Int) ≤ ((1 : Nat) : Int) - 1) := by
        push_cast
        simp only [List.length_cons]
        push_cast
        omega
      rw [if_neg hlen]
      have hget : pythonGet (c :: t) (((1 : Nat) : Int) - 1) = some c := by
        unfold pythonGet
        rw [if_pos (by norm_num)]
        norm_num
      rw [hget]
      by_cases hc : c = w
      · simp [hc]
      · simp [hc]

/-- Witness for C8 amended: the groups of `p.Q206E` are digits, and for
`p.M1T` against `MKTAYIAKQR` the first residue `M` is the one compared, so
the record verifies. -/
theorem substitution_position_domain_witness :
    ("206".data ≠ [] ∧ ∀ c ∈ "206".data, isDigitChar c = true) ∧
    processRecord [("NP_000001".data, "MKTAYIAKQR".data)]
      ⟨"NP_000001".data, "p.M1T".data⟩ = some .verified := by
  constructor
  · exact substitution_position_domain.1 "p.Q206E".data 'Q' 'E' "206".data (by decide)
  · have h := substitution_position_domain.2
      [("NP_000001".data, "MKTAYIAKQR".data)] ⟨"NP_000001".data, "p.M1T".data⟩
      'M' 'T' "1".data "MKTAYIAKQR".data (by decide) (by decide) (by decide)
    exact h

/-- C1 amended: for every record whose change string parses with a position
≥ 1, the loop's outcome is exactly the spec's four-stage ladder (unknown
reference, then offset ≥ length, then case-sensitive residue comparison at
offset `position - 1`, else verified). -/
theorem verification_ladder_positive_positions
    (idx : List (List Char × List Char)) (r : MutationRecord)
    (w m : Char) (p : List Char)
    (hx : extractSubst r.change = some (w, p, m))
    (hpos : 1 ≤ digitsToNat p) :
    processRecord idx r = some (spec_outcome_ladder idx r.rid w (digitsToNat p) m) := by
  rw [processRecord_parsed hx]
  cases hl : assocLookup idx r.rid with
  | none =>
    unfold verifySub spec_outcome_ladder
    rw [hl]
  | some protein =>
    rw [verifySub_found hl, spec_outcome_ladder_found hl]
    have h0 : (0 : Int) ≤ (digitsToNat p : Int) - 1 := by omega
    by_cases hlen : (protein.length : Int) ≤ (digitsToNat p : Int) - 1
    · rw [if_pos hlen, if_pos hlen]
    · rw [if_neg hlen, if_neg hlen]
      have htn : ((digitsToNat p : Int) - 1).toNat < protein.length := by omega
      have hget := List.get?_eq_get htn
      have hpg : pythonGet protein ((digitsToNat p : Int) - 1) =
          some (protein.get ⟨((digitsToNat p : Int) - 1).toNat, htn⟩) := by
        unfold pythonGet
        rw [if_pos h0, hget]
      have hsr : specResidueAt protein ((digitsToNat p : Int) - 1) =
          some (protein.get ⟨((digitsToNat p : Int) - 1).toNat, htn⟩) := by
        unfold specResidueAt
        rw [if_pos h0, hget]
      rw [hpg, hsr]
      generalize protein.get ⟨((digitsToNat p : Int) - 1).toNat, htn⟩ = c
      by_cases hc : c = w
      · simp [hc]
      · simp [hc]

/-- C1 counterexample: `p.A0B` parses (position 0) and, against the sequence
`MA`, the code verifies the record by comparing the *last* residue (Python
index −1), while the spec's ladder — no residue exists at 0-based offset −1 —
classifies it as a residue mismatch. -/
theorem position_zero_breaks_spec_ladder :
    processRecord [("NP_000001".data, "MA".data)] ⟨"NP_000001".data, "p.A0B".data⟩ =
      some .verified ∧
    spec_outcome_ladder [("NP_000001".data, "MA".data)] "NP_000001".data 'A' 0 'B' =
      .residueMismatch ∧
    VerificationOutcome.verified ≠ .residueMismatch ∧
    extractSubst "p.A0B".data = some ('A', "0".data, 'B') ∧
    digitsToNat "0".data = 0 := by
  decide

/-- Witness for C1 amended: `p.T1M` against `MKTAYIAKQR` (first residue `M`,
not `T`): code and ladder agree. -/
theorem verification_ladder_positive_positions_witness :
    processRecord [("NP_000001".data, "MKTAYIAKQR".data)]
        ⟨"NP_000001".data, "p.T1M".data⟩ =
      some (spec_outcome_ladder [("NP_000001".data, "MKTAYIAKQR".data)]
        "NP_000001".data 'T' (digitsToNat "1".data) 'M') :=
  verification_ladder_positive_positions _ _ 'T' 'M' "1".data (by decide) (by decide)

/-- C9: when the notation parses with position 0 and the looked-up sequence
is non-empty, the bounds check passes (−1 is never ≥ the length) and Python
index −1 reads the last residue, so the outcome is decided by comparing the
wildtype to the last residue and is never `positionOutOfRange`. -/
theorem position_zero_wraps_to_last_residue
    (idx : List (List Char × List Char)) (r : MutationRecord)
    (w m : Char) (p protein : List Char)
    (hx : extractSubst r.change = some (w, p, m))
    (h0 : digitsToNat p = 0)
    (hl : assocLookup idx r.rid = some protein)
    (hne : protein ≠ []) :
    processRecord idx r =
      some (if protein.getLast? = some w then VerificationOutcome.verified
        else VerificationOutcome.residueMismatch) ∧
    processRecord idx r ≠ some VerificationOutcome.positionOutOfRange := by
  have hlp : 0 < protein.length := List.length_pos.mpr hne
  have h1 : processRecord idx r =
      some (if protein.getLast? = some w then VerificationOutcome.verified
        else VerificationOutcome.residueMismatch) := by
    rw [processRecord_parsed hx, verifySub_found hl, h0]
    have hlen : ¬((protein.length : Int) ≤ ((0 : Nat) : Int) - 1) := by
      push_cast
      omega
    rw [if_neg hlen]
    have hlt : protein.length - 1 < protein.length := by omega
    have hgetneg : pythonGet protein (((0 : Nat) : Int) - 1) =
        some (protein.get ⟨protein.length - 1, hlt⟩) := by
      unfold pythonGet
      have hc1 : ¬((0 : Int) ≤ ((0 : Nat) : Int) - 1) := by
        norm_num
      have hc2 : -(protein.length : Int) ≤ ((0 : Nat) : Int) - 1 := by
        omega
      rw [if_neg hc1, if_pos hc2]
      have harg : (((protein.length : Int)) + (((0 : Nat) : Int) - 1)).toNat =
          protein.length - 1 := by
        omega
      rw [harg, List.get?_eq_get hlt]
    rw [hgetneg]
    have hlast : protein.getLast? = some (protein.get ⟨protein.length - 1, hlt⟩) := by
      rw [List.getLast?_eq_getLast_of_ne_nil hne]
      simp [List.getLast_eq_getElem, List.get_eq_getElem]
    rw [hlast]
    generalize protein.get ⟨protein.length - 1, hlt⟩ = c
    by_cases hc : c = w
    · simp [hc]
    · simp [hc]
  refine ⟨h1, ?_⟩
  rw [h1]
  split
  · simp
  · simp

/-- Witness for C9: `p.A0B` against `MA` — the last residue `A` equals the
wildtype, so the record verifies; it is not classified out of range. -/
theorem position_zero_wraps_to_last_residue_witness :
    processRecord [("NP_000001".data, "MA".data)]
        ⟨"NP_000001".data, "p.A0B".data⟩ =
      some (if "MA".data.getLast? = some 'A' then VerificationOutcome.verified
        else VerificationOutcome.residueMismatch) ∧
    processRecord [("NP_000001".data, "MA".data)]
        ⟨"NP_000001".data, "p.A0B".data⟩ ≠
      some VerificationOutcome.positionOutOfRange :=
  position_zero_wraps_to_last_residue
    [("NP_000001".data, "MA".data)] ⟨"NP_000001".data, "p.A0B".data⟩
    'A' 'B' "0".data "MA".data (by decide) (by decide) (by decide) (by decide)

/-- The outcomes whose loop branches increment `n_failed`. -/
def isHardFailure : VerificationOutcome → Bool
  | .unknownReference => true
  | .positionOutOfRange => true
  | .residueMismatch => true
  | _ => false

/-- The loop body never classifies a parsed row as `unparsable`. -/
theorem verifySub_ne_unparsable (idx : List (List Char × List Char))
    (rid : List Char) (w : Char) (posStr : List Char) (m : Char) :
    verifySub idx rid w posStr m ≠ some VerificationOutcome.unparsable := by
  unfold verifySub
  cases assocLookup idx rid with
  | none => simp
  | some protein =>
    split
    · simp
    · split
      · simp
      · split
        · simp
        · split <;> simp

/-- The `n_failed` accumulator counts, from any starting value, exactly the
hard failures among the outcomes of a batch that completes. -/
theorem countFailures_spec (idx : List (List Char × List Char)) :
    ∀ (recs : List MutationRecord) (acc : Nat) (outs : List VerificationOutcome),
      verifyOutcomes idx recs = some outs →
      countFailures idx recs acc = some (acc + (outs.filter isHardFailure).length) := by
  intro recs
  induction recs with
  | nil =>
    intro acc outs h
    unfold verifyOutcomes at h
    cases h
    simp [countFailures]
  | cons r rs ih =>
    intro acc outs h
    simp only [verifyOutcomes] at h
    cases hp : processRecord idx r with
    | none =>
      simp only [hp] at h
      exact Option.noConfusion h
    | some o =>
      simp only [hp] at h
      cases ho : verifyOutcomes idx rs with
      | none =>
        simp only [ho] at h
        exact Option.noConfusion h
      | some os =>
        simp only [ho, Option.some.injEq] at h
        subst h
        cases hx : extractSubst r.change with
        | none =>
          simp only [processRecord, hx, Option.some.injEq] at hp
          subst hp
          simp only [countFailures, hx]
          exact ih acc os ho
        | some g =>
          obtain ⟨w, p, m⟩ := g
          simp only [processRecord, hx] at hp
          cases o with
          | verified =>
            simp only [countFailures, hx, hp]
            exact ih acc os ho
          | unparsable => exact absurd hp (verifySub_ne_unparsable idx r.rid w p m)
          | unknownReference =>
            simp only [countFailures, hx, hp]
            rw [ih (acc + 1) os ho]
            have hflt : ((VerificationOutcome.unknownReference :: os).filter
                isHardFailure).length = (os.filter isHardFailure).length + 1 := rfl
            rw [hflt]
            simp only [Option.some.injEq]
            omega
          | positionOutOfRange =>
            simp only [countFailures, hx, hp]
            rw [ih (acc + 1) os ho]
            have hflt : ((VerificationOutcome.positionOutOfRange :: os).filter
                isHardFailure).length = (os.filter isHardFailure).length + 1 := rfl
            rw [hflt]
            simp only [Option.some.injEq]
            omega
          | residueMismatch =>
            simp only [countFailures, hx, hp]
            rw [ih (acc + 1) os ho]
            have hflt : ((VerificationOutcome.residueMismatch :: os).filter
                isHardFailure).length = (os.filter isHardFailure).length + 1 := rfl
            rw [hflt]
            simp only [Option.some.injEq]
            omega

/-- C2 amended: for every batch that completes, the reported failure count
is the number of outcomes among `unknownReference`, `positionOutOfRange`
and `residueMismatch` — an `unparsable` record is *not* counted as a
failure — and the reported total is the number of input records, unparsable
ones included. -/
theorem summary_counts_hard_failures (idx : List (List Char × List Char))
    (recs : List MutationRecord) (outs : List VerificationOutcome)
    (h : verifyOutcomes idx recs = some outs) :
    load_summary idx recs = some ((outs.filter isHardFailure).length, recs.length) := by
  unfold load_summary
  rw [countFailures_spec idx recs 0 outs h]
  simp

/-- C2 counterexample: a batch holding one unparsable record — its outcome
differs from `Verified`, yet the reported failure count is 0, not 1, because
non-matching rows are dropped before the loop and never counted. -/
theorem unparsable_outcome_not_counted :
    verifyOutcomes [] [⟨"X".data, "zzz".data⟩] =
      some [VerificationOutcome.unparsable] ∧
    load_summary [] [⟨"X".data, "zzz".data⟩] = some (0, 1) ∧
    (([VerificationOutcome.unparsable].filter
      (fun o => decide (o ≠ VerificationOutcome.verified))).length = 1) ∧
    (0 : Nat) ≠ 1 := by
  decide

/-- Witness for C2 amended: the singleton unparsable batch completes with
outcome list `[unparsable]`, zero hard failures, total 1. -/
theorem summary_counts_hard_failures_witness :
    load_summary [] [⟨"X".data, "zzz".data⟩] =
      some ((([VerificationOutcome.unparsable] :
        List VerificationOutcome).filter isHardFailure).length, 1) :=
  summary_counts_hard_failures [] [⟨"X".data, "zzz".data⟩]
    [VerificationOutcome.unparsable] (by decide)

/-- C5: a record with raw identifier `gi|12345|ref|NP_000001.2|description`
and any sequence `S` yields an index mapping `NP_000001` (4th pipe field,
version suffix dropped) to exactly `S`. -/
theorem refseq_index_round_trip (S : List Char) :
    assocLookup
      (build_refseq_id_to_protein
        [⟨"gi|12345|ref|NP_000001.2|description".data, S⟩])
      "NP_000001".data = some S := by
  rfl

/-- A record is stripped to no key exactly when the spec-side keep predicate
rejects it (fewer than 4 pipe fields, or 4th field not starting `NP_`). -/
theorem stripRefseqId_none_iff (r : FastaRecord) :
    stripRefseqId r.id = none ↔ specKeeps r = false := by
  cases h : (splitOnChar '|' r.id).get? 3 with
  | none =>
    simp only [stripRefseqId, specKeeps, h]
  | some name =>
    cases hp : ['N', 'P', '_'].isPrefixOf name with
    | false =>
      simp only [stripRefseqId, specKeeps, h]
      simp [hp]
    | true =>
      simp only [stripRefseqId, specKeeps, h]
      simp [hp]

/-- C6: index construction is a total function that ignores every record
whose 4th pipe-delimited field does not start with `NP_` and every record
with fewer than 4 pipe-delimited fields: the index built from any record
collection equals the index built from just the kept records. -/
theorem skipped_records_leave_index_unchanged (recs : List FastaRecord) :
    build_refseq_id_to_protein recs =
      build_refseq_id_to_protein (recs.filter specKeeps) := by
  unfold build_refseq_id_to_protein
  suffices h : ∀ acc, recs.foldl buildStep acc =
      (recs.filter specKeeps).foldl buildStep acc from h []
  induction recs with
  | nil => intro acc; rfl
  | cons r rs ih =>
    intro acc
    cases hk : specKeeps r with
    | true =>
      have hfil : (r :: rs).filter specKeeps = r :: rs.filter specKeeps := by
        simp [List.filter_cons, hk]
      rw [hfil, List.foldl_cons, List.foldl_cons]
      exact ih (buildStep acc r)
    | false =>
      have hfil : (r :: rs).filter specKeeps = rs.filter specKeeps := by
        simp [List.filter_cons, hk]
      have hstep : buildStep acc r = acc := by
        unfold buildStep
        rw [(stripRefseqId_none_iff r).mpr hk]
      rw [hfil, List.foldl_cons, hstep]
      exact ih acc

/-- Overwriting insertion followed by lookup behaves like a pointwise
update, regardless of the association list it is applied to. -/
theorem assocLookup_insertIdx {α β : Type} [DecidableEq α] (k : α) (v : β)
    (l : List (α × β)) (a : α) :
    assocLookup (insertIdx k v l) a = if k = a then some v else assocLookup l a := by
  induction l with
  | nil => rfl
  | cons q t ih =>
    obtain ⟨k₁, v₁⟩ := q
    by_cases h : k₁ = k
    · subst h
      by_cases ha : k₁ = a
      · subst ha
        simp [insertIdx, assocLookup]
      · simp [insertIdx, assocLookup, ha]
    · by_cases ha : k = a
      · subst ha
        simp [insertIdx, assocLookup, h, ih, fun hh : k₁ = k => h hh]
      · simp [insertIdx, assocLookup, h, ha, ih]

/-- C7: for every record collection and key, looking the key up in the
built index returns exactly what the spec's last-write-wins policy
prescribes: the sequence of the last record (in iteration order) whose
stripped identifier is that key, or nothing when no record produces it. -/
theorem index_is_last_write_wins (recs : List FastaRecord) (k : List Char) :
    assocLookup (build_refseq_id_to_protein recs) k = lastWriteWins recs k := by
  unfold build_refseq_id_to_protein lastWriteWins
  suffices h : ∀ acc, assocLookup (recs.foldl buildStep acc) k =
      recs.foldl (lwwStep k) (assocLookup acc k) from h []
  induction recs with
  | nil => intro acc; rfl
  | cons r rs ih =>
    intro acc
    rw [List.foldl_cons, List.foldl_cons, ih]
    congr 1
    unfold buildStep lwwStep
    cases hs : stripRefseqId r.id with
    | none => simp [hs]
    | some k₂ =>
      rw [assocLookup_insertIdx]
      by_cases hk : k₂ = k
      · subst hk
        simp [hs]
      · simp [hs, hk]

/-- The loader loop performs exactly the calls for the longest catalogued
prefix of the key list, and fails on the first uncatalogued key. -/
theorem loadMafLoop_spec (fetchData : String → String → String)
    (catalog : List (String × String)) :
    ∀ keys : List String,
      loadMafLoop fetchData catalog keys =
        ((keys.takeWhile fun k => (assocLookup catalog k).isSome).flatMap
          (evsFor fetchData catalog),
         ((keys.dropWhile fun k => (assocLookup catalog k).isSome).head?).map
          LoadError.unknownCohort) := by
  intro keys
  induction keys with
  | nil => rfl
  | cons k ks ih =>
    cases h : assocLookup catalog k with
    | none =>
      unfold loadMafLoop
      rw [h]
      rw [List.takeWhile_cons_of_neg (by simp [h]),
        List.dropWhile_cons_of_neg (by simp [h])]
      rfl
    | some url =>
      unfold loadMafLoop
      rw [h, ih]
      rw [List.takeWhile_cons_of_pos (by simp [h]),
        List.dropWhile_cons_of_pos (by simp [h])]
      simp only [List.flatMap_cons, evsFor, h]
      rfl

/-- Every event a catalogued key contributes is tagged with that key. -/
theorem evsFor_cohort (fetchData : String → String → String)
    (catalog : List (String × String)) (k : String) (e : MafEvent)
    (he : e ∈ evsFor fetchData catalog k) : e.cohort = k := by
  unfold evsFor at he
  cases h : assocLookup catalog k with
  | none => rw [h] at he; simp at he
  | some url =>
    rw [h] at he
    simp only [List.mem_cons, List.not_mem_nil, or_false] at he
    rcases he with rfl | rfl
    · rfl
    · rfl

/-- A list containing an element that fails the predicate has a nonempty
`dropWhile` remainder. -/
theorem dropWhile_ne_nil_of_mem {α : Type} (p : α → Bool) :
    ∀ (l : List α) (a : α), a ∈ l → p a = false → l.dropWhile p ≠ []
  | [], a, ha, _ => by simp at ha
  | x :: xs, a, ha, hpa => by
    cases hx : p x with
    | false => rw [List.dropWhile_cons_of_neg (by simp [hx])]; simp
    | true =>
      rw [List.dropWhile_cons_of_pos (by simp [hx])]
      rcases List.mem_cons.mp ha with rfl | hmem
      · rw [hx] at hpa; cases hpa
      · exact dropWhile_ne_nil_of_mem p xs a hmem hpa

/-- C10: whenever the selector names a key absent from the catalog, the
load fails with an unknown-cohort error, no fetch or parse call is made for
that key, and each key of the catalogued prefix before the failure still
gets its fetch call and its parse call on the fetched path. -/
theorem unknown_cohort_fails_without_calls
    (fetchData : String → String → String) (catalog : List (String × String))
    (sel : CohortSelector) (k : String)
    (hmem : k ∈ selectedKeys catalog sel)
    (hu : assocLookup catalog k = none) :
    (load_maf_files fetchData catalog sel).2 ≠ none ∧
    (∀ e ∈ (load_maf_files fetchData catalog sel).1, e.cohort ≠ k) ∧
    (∀ k' ∈ (selectedKeys catalog sel).takeWhile
        (fun x => (assocLookup catalog x).isSome),
      ∃ url, assocLookup catalog k' = some url ∧
        MafEvent.fetch k' (k' ++ ".maf") url ∈ (load_maf_files fetchData catalog sel).1 ∧
        MafEvent.parseMaf k' (fetchData (k' ++ ".maf") url) ∈
          (load_maf_files fetchData catalog sel).1) := by
  unfold load_maf_files
  rw [loadMafLoop_spec fetchData catalog (selectedKeys catalog sel)]
  refine ⟨?_, ?_, ?_⟩
  · have h2 := dropWhile_ne_nil_of_mem (fun x => (assocLookup catalog x).isSome)
      (selectedKeys catalog sel) k hmem (by simp [hu])
    rcases List.exists_cons_of_ne_nil h2 with ⟨a, l, hal⟩
    rw [hal]
    simp
  · intro e he
    rcases List.mem_flatMap.mp he with ⟨k', hk', he'⟩
    have hkeep := List.mem_takeWhile_imp hk'
    rw [evsFor_cohort fetchData catalog k' e he']
    intro hkk
    subst hkk
    rw [hu] at hkeep
    simp at hkeep
  · intro k' hk'
    have hkeep := List.mem_takeWhile_imp hk'
    rcases Option.isSome_iff_exists.mp (by simpa using hkeep) with ⟨url, hurl⟩
    refine ⟨url, hurl, ?_, ?_⟩
    · exact List.mem_flatMap.mpr ⟨k', hk', by simp [evsFor, hurl]⟩
    · exact List.mem_flatMap.mpr ⟨k', hk', by simp [evsFor, hurl]⟩

/-- Witness for C10: selecting the uncatalogued cohort `lusc` from a
catalog holding only `gbm` fails and performs no call for `lusc`. -/
theorem unknown_cohort_fails_without_calls_witness :
    (load_maf_files (fun n _ => n) [("gbm", "u")]
      (CohortSelector.oneCohort "lusc")).2 ≠ none ∧
    (∀ e ∈ (load_maf_files (fun n _ => n) [("gbm", "u")]
      (CohortSelector.oneCohort "lusc")).1, e.cohort ≠ "lusc") :=
  ⟨(unknown_cohort_fails_without_calls (fun n _ => n) [("gbm", "u")]
      (CohortSelector.oneCohort "lusc") "lusc" (by decide) (by decide)).1,
   (unknown_cohort_fails_without_calls (fun n _ => n) [("gbm", "u")]
      (CohortSelector.oneCohort "lusc") "lusc" (by decide) (by decide)).2.1⟩
